import Mathlib

/-!
Shallow embedding of the hdarrrr exposure-fusion / tone-mapping engine.

The definitions below are translated from the Go sources:
- `src/internal/processor/tonemap.go` (ReinhardToneMapper, DragoToneMapper),
- `src/internal/processor/hdr.go` (HDRProcessor.Process, convertToHDR,
  validateImageProperties, average merge),
- `src/unnamed/part_007` (weighted exposure fusion with calculateWeight,
  validateImageSize, the seven-operator switch),
- `src/pkg/imaging/image.go` (GetImageProperties, ValidateImageProperties).

Go float64 arithmetic is modelled exactly: rational arithmetic (ℚ) where the
source only uses field operations, and real arithmetic (ℝ) where `math.Exp`
appears. Pixel grids are modelled as bounds plus an access function; the
stateful per-pixel write loop of `Process` is modelled by a result value
together with the ordered list of pixel positions written into the merged
radiance map before `Process` returns.
-/

namespace Hdarrrr

/-- Go `image.Rectangle`: min (inclusive) and max (exclusive) corners. -/
structure Rect where
  minX : Int
  minY : Int
  maxX : Int
  maxY : Int
deriving DecidableEq

/-- Go `Rectangle.Dx`. -/
def Rect.dx (r : Rect) : Int := r.maxX - r.minX

/-- Go `Rectangle.Dy`. -/
def Rect.dy (r : Rect) : Int := r.maxY - r.minY

/-- Membership of a pixel position in a rectangle, as iterated by the
`for y ... for x ...` loops of the Go source. -/
def Rect.contains (r : Rect) (x y : Int) : Prop :=
  r.minX ≤ x ∧ x < r.maxX ∧ r.minY ≤ y ∧ y < r.maxY

instance (r : Rect) (x y : Int) : Decidable (r.contains x y) := by
  unfold Rect.contains
  exact inferInstance

/-- The pixel positions of a rectangle in the write order of the Go merge
loop: outer loop over y from Min.Y, inner loop over x from Min.X. -/
def Rect.pixels (r : Rect) : List (Int × Int) :=
  (List.range r.dy.toNat).flatMap (fun dy =>
    (List.range r.dx.toNat).map (fun dx => (r.minX + dx, r.minY + dy)))

/-- An RGB triple of float64 channel values (`hdrcolor.RGB`), modelled over ℚ
since the merge and tone-map code under test uses only field operations. -/
structure RGBq where
  r : ℚ
  g : ℚ
  b : ℚ
deriving DecidableEq

/-- An `hdr.Image`: bounds plus per-pixel float64 RGB access (`HDRAt`). -/
structure HDRImage where
  bounds : Rect
  hdrAt : Int → Int → RGBq

instance : Inhabited HDRImage :=
  ⟨⟨⟨0, 0, 0, 0⟩, fun _ _ => ⟨0, 0, 0⟩⟩⟩

/-- A non-HDR Go `image.Image`: bounds plus `At(x,y).RGBA()` access, returning
alpha-premultiplied channel samples in the range 0..0xffff. -/
structure LDRImage where
  bounds : Rect
  rgbaAt : Int → Int → Nat × Nat × Nat × Nat

/-- A Go `image.Image` value handed to `Process`: it either already
implements the `hdr.Image` interface or it does not (type switch in
`Process`). -/
inductive GoImage
  | hdrI (img : HDRImage)
  | ldrI (img : LDRImage)

instance : Inhabited GoImage := ⟨.hdrI default⟩

/-- Bounds of a `GoImage` (`img.Bounds()`). -/
def GoImage.boundsOf : GoImage → Rect
  | .hdrI img => img.bounds
  | .ldrI img => img.bounds

/-! ## Tone mappers (src/internal/processor/tonemap.go) -/

/-- Go struct `ReinhardToneMapper` (no fields). -/
structure ReinhardToneMapper where

/-- Go `NewReinhardToneMapper`. -/
def NewReinhardToneMapper : ReinhardToneMapper := {}

/-- Go `ReinhardToneMapper.ToneMap`: clamp negatives to 0, then v / (1 + v). -/
def ReinhardToneMapper.ToneMap (_ : ReinhardToneMapper) (v : ℚ) : ℚ :=
  let v' := max 0 v
  v' / (1 + v')

/-- Go struct `DragoToneMapper` with display luminance `LdMax` and bias `B`. -/
structure DragoToneMapper where
  LdMax : ℚ
  B : ℚ

/-- Go `NewDragoToneMapper` (src/internal/processor/tonemap.go: stores the
two parameters unchanged). -/
def NewDragoToneMapper (ldMax b : ℚ) : DragoToneMapper :=
  { LdMax := ldMax, B := b }

/-- Go `DragoToneMapper.ToneMap` (src/internal/processor/tonemap.go lines
56-61): clamp negatives to 0, then (LdMax * (v * (1 + v/(B*B)))) / (1 + v). -/
def DragoToneMapper.ToneMap (t : DragoToneMapper) (v : ℚ) : ℚ :=
  let v' := max 0 v
  (t.LdMax * (v' * (1 + v' / (t.B * t.B)))) / (1 + v')

/-! ## Exposure-fusion weight (src/unnamed/part_007, calculateWeight) -/

/-- Go `HDRProcessor.calculateWeight`: with `mid = 0.5` and
`diff = v - mid`, returns `math.Exp(-diff * diff * 4)`. -/
noncomputable def calculateWeight (v : ℝ) : ℝ :=
  Real.exp (-(v - 0.5) * (v - 0.5) * 4)

/-! ## Error values returned by the processor (errors.New / fmt.Errorf) -/

/-- The distinct error values produced by `HDRProcessor.Process` and its
validation helpers. Indices are the 1-based positions used in the Go error
messages ("image %d is nil", "image %d has different dimensions ..."). The
constructor `nilFirstImage` marks the nil-interface method call
`images[0].Bounds()` inside `validateImageSize` of src/unnamed/part_007,
which panics in Go; it is modelled as a distinguished error value. -/
inductive ProcessError
  | insufficientCount
  | nilImage (i : Nat)
  | dimensionMismatch (i : Nat)
  | unsupportedOperator (name : String)
  | sizeRequirement (w h : Int)
  | nilFirstImage
deriving DecidableEq

/-! ## HDR conversion and validation (src/internal/processor/hdr.go) -/

/-- Go `convertToHDR`: allocates `hdr.NewRGB(bounds)` (zero-initialised) and
writes `RGBA()/0xffff` for every in-bounds pixel. -/
def convertToHDR (img : LDRImage) : HDRImage :=
  { bounds := img.bounds
    hdrAt := fun x y =>
      if img.bounds.contains x y then
        let s := img.rgbaAt x y
        ⟨(s.1 : ℚ) / 0xffff, (s.2.1 : ℚ) / 0xffff, (s.2.2.1 : ℚ) / 0xffff⟩
      else ⟨0, 0, 0⟩ }

/-- The type switch in `Process`: an input that already implements
`hdr.Image` is used directly; any other image is converted. -/
def toHDRImage : GoImage → HDRImage
  | .hdrI img => img
  | .ldrI img => convertToHDR img

/-- The conversion loop of `Process` (hdr.go lines 52-64): walks the input
slice, fails at the first nil element with its 1-based index, otherwise
produces the slice of HDR images. `i` is the 0-based index of the current
head in the original slice. -/
def convertLoop : List (Option GoImage) → Nat → Except ProcessError (List HDRImage)
  | [], _ => .ok []
  | none :: _, i => .error (.nilImage (i + 1))
  | some g :: rest, i =>
    match convertLoop rest (i + 1) with
    | .error e => .error e
    | .ok tl => .ok (toHDRImage g :: tl)

/-- The loop of `validateImageProperties` over `images[1:]` (hdr.go lines
137-145): fails at the first image whose bounds differ from the first
image's bounds, reporting the 1-based index `i+2`. (The `img == nil` branch
of the Go loop is dead in this model because `Process` has already replaced
every element by a constructed HDR image.) -/
def boundsLoop (baseBounds : Rect) : List HDRImage → Nat → Except ProcessError Unit
  | [], _ => .ok ()
  | img :: rest, i =>
    if img.bounds ≠ baseBounds then .error (.dimensionMismatch (i + 2))
    else boundsLoop baseBounds rest (i + 1)

/-- Go `validateImageProperties` (hdr.go lines 129-148). -/
def validateImageProperties (images : List HDRImage) : Except ProcessError Unit :=
  if images.length < 2 then .error .insufficientCount
  else boundsLoop images.headI.bounds images.tail 0

/-- The validation phase of `HDRProcessor.Process` (hdr.go lines 46-69):
the length check, the nil-check-and-convert loop, and
`validateImageProperties`; on success it yields the converted HDR images. -/
def checkImages (images : List (Option GoImage)) : Except ProcessError (List HDRImage) :=
  if images.length < 2 then .error .insufficientCount
  else
    match convertLoop images 0 with
    | .error e => .error e
    | .ok hdrs =>
      match validateImageProperties hdrs with
      | .error e => .error e
      | .ok _ => .ok hdrs

/-! ## Average merge (src/internal/processor/hdr.go lines 75-92) -/

/-- One iteration of the average-merge loop body: add the pixel's channels
to the three accumulators. -/
def avgStep (x y : Int) (acc : ℚ × ℚ × ℚ) (img : HDRImage) : ℚ × ℚ × ℚ :=
  let c := img.hdrAt x y
  (acc.1 + c.r, acc.2.1 + c.g, acc.2.2 + c.b)

/-- The per-pixel channel sums of the average-merge loop (`sumR`, `sumG`,
`sumB` accumulated over the exposure slice). -/
def channelSums (imgs : List HDRImage) (x y : Int) : ℚ × ℚ × ℚ :=
  imgs.foldl (avgStep x y) (0, 0, 0)

/-- The merged radiance map of hdr.go's `Process`: `hdr.NewRGB(bounds)`
(zero-initialised), with each in-bounds pixel set to the channel sums
divided by the number of exposures. -/
def mergeAverage (imgs : List HDRImage) (bounds : Rect) : HDRImage :=
  { bounds := bounds
    hdrAt := fun x y =>
      if bounds.contains x y then
        let s := channelSums imgs x y
        let n : ℚ := (imgs.length : ℚ)
        ⟨s.1 / n, s.2.1 / n, s.2.2 / n⟩
      else ⟨0, 0, 0⟩ }

/-! ## Tone-mapping stage and Process (src/internal/processor/hdr.go) -/

/-- The final display image returned by `tm.Perform()`. -/
structure DisplayImage where
  bounds : Rect
  pixelAt : Int → Int → RGBq

/-- Modelled from the spec: the tone-mapping operators of the external
`github.com/mdouchement/hdr/tmo` library (whose source is not part of this
repository) satisfy the common contract of spec section 4.4 — `Perform`
applies a per-channel, per-pixel map `toneMap(float) -> float in [0,1]` to
the radiance map and returns an image with the same bounds. The particular
per-channel curve (here the spec's simple Reinhard) is irrelevant to the
claims, which only depend on bounds preservation and totality. -/
def tmoPerform (m : HDRImage) : DisplayImage :=
  { bounds := m.bounds
    pixelAt := fun x y =>
      let c := m.hdrAt x y
      ⟨max 0 c.r / (1 + max 0 c.r), max 0 c.g / (1 + max 0 c.g),
       max 0 c.b / (1 + max 0 c.b)⟩ }

/-- Go struct `HDRProcessor`: selected tone-mapper name and parameter map
(a missing key reads as 0 in Go, so the map is modelled as a total
function). -/
structure HDRProcessor where
  toneMapper : String
  params : String → ℚ

/-- Go `HDRProcessor.Process` (src/internal/processor/hdr.go lines 46-107),
instrumented with the ordered list of pixel positions written into the
merged radiance map by the fusion loop before `Process` returns: the length
check, nil-check-and-convert loop and `validateImageProperties` run first
(no writes yet), then the merge loop writes every in-bounds pixel, and only
then is the tone-mapper name examined. -/
def process (p : HDRProcessor) (images : List (Option GoImage)) :
    List (Int × Int) × Except ProcessError DisplayImage :=
  match checkImages images with
  | .error e => ([], .error e)
  | .ok hdrs =>
    let bounds := hdrs.headI.bounds
    let merged := mergeAverage hdrs bounds
    if p.toneMapper = "reinhard05" then (bounds.pixels, .ok (tmoPerform merged))
    else if p.toneMapper = "drago03" then (bounds.pixels, .ok (tmoPerform merged))
    else (bounds.pixels, .error (.unsupportedOperator p.toneMapper))

/-! ## Weighted exposure fusion (src/unnamed/part_007) -/

/-- The weight of one exposure at one pixel in the fusion loop of
src/unnamed/part_007: `calculateWeight` applied to the brightness proxy
`(r + g + b) / 3`. -/
noncomputable def pixelWeight (img : HDRImage) (x y : Int) : ℝ :=
  let c := img.hdrAt x y
  calculateWeight (((c.r : ℝ) + (c.g : ℝ) + (c.b : ℝ)) / 3)

/-- One iteration of the weighted fusion loop body (part_007 lines 97-105):
add the weighted channels and the weight to the four accumulators. -/
noncomputable def fuseStep (x y : Int) (acc : ℝ × ℝ × ℝ × ℝ) (img : HDRImage) :
    ℝ × ℝ × ℝ × ℝ :=
  let c := img.hdrAt x y
  let w := pixelWeight img x y
  (acc.1 + (c.r : ℝ) * w, acc.2.1 + (c.g : ℝ) * w,
   acc.2.2.1 + (c.b : ℝ) * w, acc.2.2.2 + w)

/-- The four accumulators of the weighted fusion loop (part_007 lines
96-106): `(sumR, sumG, sumB, sumWeight)` accumulated over the exposure
slice in order. -/
noncomputable def weightedSums (imgs : List HDRImage) (x y : Int) : ℝ × ℝ × ℝ × ℝ :=
  imgs.foldl (fuseStep x y) (0, 0, 0, 0)

/-- Mathematical sum forms of the three weighted channel accumulators. -/
noncomputable def sumWeighted (ch : RGBq → ℚ) (imgs : List HDRImage) (x y : Int) : ℝ :=
  (imgs.map (fun img => (ch (img.hdrAt x y) : ℝ) * pixelWeight img x y)).sum

/-- Mathematical sum form of the weight accumulator `sumWeight`. -/
noncomputable def sumWeights (imgs : List HDRImage) (x y : Int) : ℝ :=
  (imgs.map (fun img => pixelWeight img x y)).sum

/-- The value of one pixel of the merged radiance map of part_007's
`Process`: the pixel is set to the weighted sums divided by the weight sum
when `sumWeight > 0`, and otherwise keeps the zero value given to it by
`hdr.NewRGB`. -/
noncomputable def fusedAt (imgs : List HDRImage) (x y : Int) : ℝ × ℝ × ℝ :=
  let s := weightedSums imgs x y
  if 0 < s.2.2.2 then (s.1 / s.2.2.2, s.2.1 / s.2.2.2, s.2.2.1 / s.2.2.2)
  else (0, 0, 0)

/-- Go `HDRProcessor.validateImageSize` (part_007 lines 49-56): only the
`icam06` operator imposes a minimum 32x32 size. -/
def validateImageSize (p : HDRProcessor) (img : GoImage) : Except ProcessError Unit :=
  let bounds := img.boundsOf
  if p.toneMapper = "icam06" ∧ (bounds.dx < 32 ∨ bounds.dy < 32) then
    .error (.sizeRequirement bounds.dx bounds.dy)
  else .ok ()

/-- The tone-mapper names recognised by the switch of part_007's `Process`
(lines 119-137). -/
def part7Operators : List String :=
  ["reinhard05", "drago03", "linear", "logarithmic", "durand",
   "custom_reinhard05", "icam06"]

/-- The validation phase of part_007's `Process` (lines 59-87): the length
check, `validateImageSize` on the first image (whose `Bounds()` call panics
in Go when that image is nil — modelled by the `nilFirstImage` error), the
nil-check-and-convert loop, and `validateImageProperties`. -/
def part7Validate (p : HDRProcessor) (images : List (Option GoImage)) :
    Except ProcessError (List HDRImage) :=
  if images.length < 2 then .error .insufficientCount
  else
    match images.headI with
    | none => .error .nilFirstImage
    | some first =>
      match validateImageSize p first with
      | .error e => .error e
      | .ok _ =>
        match convertLoop images 0 with
        | .error e => .error e
        | .ok hdrs =>
          match validateImageProperties hdrs with
          | .error e => .error e
          | .ok _ => .ok hdrs

/-- An `hdr.Image` whose channel values come from the real-valued fusion
arithmetic. -/
structure HDRImage' where
  bounds : Rect
  hdrAt : Int → Int → ℝ × ℝ × ℝ

/-- The merged radiance map of part_007's `Process`: zero-initialised by
`hdr.NewRGB(bounds)`, each in-bounds pixel written by the weighted fusion
loop (guarded by `sumWeight > 0`). -/
noncomputable def fusedMap (imgs : List HDRImage) (bounds : Rect) : HDRImage' :=
  { bounds := bounds
    hdrAt := fun x y => if bounds.contains x y then fusedAt imgs x y else (0, 0, 0) }

/-- The display image returned by `tm.Perform()` in part_007, over the
real-valued merged map. -/
structure DisplayImage' where
  bounds : Rect
  pixelAt : Int → Int → ℝ × ℝ × ℝ

/-- Modelled from the spec, as `tmoPerform`: the external library operators
selected by part_007's switch apply a per-channel, per-pixel map into [0,1]
and preserve bounds. -/
noncomputable def tmoPerformR (m : HDRImage') : DisplayImage' :=
  { bounds := m.bounds
    pixelAt := fun x y =>
      let c := m.hdrAt x y
      (max 0 c.1 / (1 + max 0 c.1), max 0 c.2.1 / (1 + max 0 c.2.1),
       max 0 c.2.2 / (1 + max 0 c.2.2)) }

/-- Go `HDRProcessor.Process` of src/unnamed/part_007 (lines 59-140): the
validation phase, then the weighted fusion loop, then the seven-way switch
on the tone-mapper name (every recognised case returns `tm.Perform()`, the
default case returns the unsupported-operator error). -/
noncomputable def part7Process (p : HDRProcessor) (images : List (Option GoImage)) :
    Except ProcessError DisplayImage' :=
  match part7Validate p images with
  | .error e => .error e
  | .ok hdrs =>
    let merged := fusedMap hdrs hdrs.headI.bounds
    if p.toneMapper ∈ part7Operators then .ok (tmoPerformR merged)
    else .error (.unsupportedOperator p.toneMapper)

/-! ## Image-properties validation (src/pkg/imaging/image.go) -/

/-- An input image as seen by the imaging package, carrying its actual
channel encoding: bits per channel and a colour-model identifier (e.g. RGB
vs grayscale). `GetImageProperties` receives such an image but reads only
its bounds. -/
structure SrcImage where
  bounds : Rect
  bitsPerChannel : Nat
  colorModelId : Nat

/-- Go struct `ImageProperties` (image.go lines 23-29). -/
structure ImageProperties where
  Width : Int
  Height : Int
  ColorDepth : Nat
  Format : String
deriving DecidableEq

/-- Go `GetImageProperties` (image.go lines 32-41): width and height from
the bounds, the file-format extension passed through, and a ColorDepth
hard-coded to 8 ("Assuming 8 bits per channel for simplicity") — the
image's actual channel encoding is never consulted. -/
def GetImageProperties (img : SrcImage) (format : String) : ImageProperties :=
  { Width := img.bounds.dx
    Height := img.bounds.dy
    ColorDepth := 8
    Format := format }

/-- Go `ValidateImageProperties` (image.go lines 44-49): field-by-field
comparison of the two property records. -/
def ValidateImageProperties (baseProps props : ImageProperties) : Bool :=
  baseProps.Width == props.Width && baseProps.Height == props.Height &&
    baseProps.ColorDepth == props.ColorDepth && baseProps.Format == props.Format

/-! ## Concrete fixtures used by witnesses and counterexamples -/

/-- A 1x1 rectangle with its min corner at the origin. -/
def rect1 : Rect := ⟨0, 0, 1, 1⟩

/-- A 1x1 HDR image whose only pixel is mid-grey (every channel 1/2). -/
def hdrMid : HDRImage := ⟨rect1, fun _ _ => ⟨1/2, 1/2, 1/2⟩⟩

/-- A 1x1 HDR image whose only pixel has radiance 3/2 on every channel
(outside [0,1], as HDR radiance may be). -/
def hdrBright : HDRImage := ⟨rect1, fun _ _ => ⟨3/2, 3/2, 3/2⟩⟩

/-- A 1x1 LDR image whose only pixel has RGBA sample (65535, 0, 13107, 65535). -/
def ldrSample : LDRImage := ⟨rect1, fun _ _ => (65535, 0, 13107, 65535)⟩

/-- A two-element exposure list of identical mid-grey images. -/
def imagesMid : List (Option GoImage) := [some (.hdrI hdrMid), some (.hdrI hdrMid)]

/-- A processor configured with an unrecognised tone-mapper name. -/
def procBogus : HDRProcessor := ⟨"bogus", fun _ => 0⟩

/-- A processor configured with the default recognised operator. -/
def procReinhard : HDRProcessor := ⟨"reinhard05", fun _ => 0⟩

/-! ## Helper lemmas -/

/-- The weight of an exposure at a pixel is strictly positive (it is an
exponential). -/
lemma pixelWeight_pos (img : HDRImage) (x y : Int) : 0 < pixelWeight img x y :=
  Real.exp_pos _

/-- Channel sums of the average-merge fold, with a general accumulator. -/
lemma foldl_avgStep (imgs : List HDRImage) (x y : Int) (a : ℚ × ℚ × ℚ) :
    imgs.foldl (avgStep x y) a =
      (a.1 + (imgs.map (fun img => (img.hdrAt x y).r)).sum,
       a.2.1 + (imgs.map (fun img => (img.hdrAt x y).g)).sum,
       a.2.2 + (imgs.map (fun img => (img.hdrAt x y).b)).sum) := by
  induction imgs generalizing a with
  | nil => simp
  | cons img rest ih =>
    simp only [List.foldl_cons, ih, List.map_cons, List.sum_cons, avgStep]
    refine Prod.ext ?_ (Prod.ext ?_ ?_) <;> dsimp <;> ring

/-- The average-merge channel sums in mathematical sum form. -/
lemma channelSums_eq (imgs : List HDRImage) (x y : Int) :
    channelSums imgs x y =
      ((imgs.map (fun img => (img.hdrAt x y).r)).sum,
       (imgs.map (fun img => (img.hdrAt x y).g)).sum,
       (imgs.map (fun img => (img.hdrAt x y).b)).sum) := by
  unfold channelSums
  rw [foldl_avgStep]
  simp

/-- Accumulators of the weighted-fusion fold, with a general accumulator. -/
lemma foldl_fuseStep (imgs : List HDRImage) (x y : Int) (a : ℝ × ℝ × ℝ × ℝ) :
    imgs.foldl (fuseStep x y) a =
      (a.1 + sumWeighted RGBq.r imgs x y, a.2.1 + sumWeighted RGBq.g imgs x y,
       a.2.2.1 + sumWeighted RGBq.b imgs x y, a.2.2.2 + sumWeights imgs x y) := by
  induction imgs generalizing a with
  | nil => simp [sumWeighted, sumWeights]
  | cons img rest ih =>
    simp only [List.foldl_cons, ih, sumWeighted, sumWeights, List.map_cons,
      List.sum_cons, fuseStep]
    refine Prod.ext ?_ (Prod.ext ?_ (Prod.ext ?_ ?_)) <;> dsimp <;> ring

/-- The weighted-fusion accumulators in mathematical sum form. -/
lemma weightedSums_eq (imgs : List HDRImage) (x y : Int) :
    weightedSums imgs x y =
      (sumWeighted RGBq.r imgs x y, sumWeighted RGBq.g imgs x y,
       sumWeighted RGBq.b imgs x y, sumWeights imgs x y) := by
  unfold weightedSums
  rw [foldl_fuseStep]
  simp

/-- The weight sum at any pixel is non-negative. -/
lemma sumWeights_nonneg (imgs : List HDRImage) (x y : Int) :
    0 ≤ sumWeights imgs x y := by
  refine List.sum_nonneg ?_
  intro w hw
  rcases List.mem_map.mp hw with ⟨img, _, rfl⟩
  exact (pixelWeight_pos img x y).le

/-- Conversion preserves bounds: both branches of the type switch yield an
HDR image with the bounds of the input. -/
lemma toHDRImage_bounds (g : GoImage) : (toHDRImage g).bounds = g.boundsOf := by
  cases g <;> rfl

/-- The conversion loop on a nil-free slice succeeds and converts
element-wise. -/
lemma convertLoop_map_some (gs : List GoImage) (k : Nat) :
    convertLoop (gs.map some) k = .ok (gs.map toHDRImage) := by
  induction gs generalizing k with
  | nil => rfl
  | cons g rest ih => simp [convertLoop, ih]

/-- The conversion loop fails with a nil-image error when the slice has a
nil element. -/
lemma convertLoop_mem_none (images : List (Option GoImage)) (hmem : none ∈ images) :
    ∀ k, ∃ i, convertLoop images k = .error (.nilImage i) := by
  induction images with
  | nil => cases hmem
  | cons hd rest ih =>
    intro k
    cases hd with
    | none => exact ⟨k + 1, rfl⟩
    | some g =>
      have hrest : none ∈ rest := by
        rcases List.mem_cons.mp hmem with h | h
        · cases h
        · exact h
      rcases ih hrest (k + 1) with ⟨i, hi⟩
      exact ⟨i, by simp [convertLoop, hi]⟩

/-- When the conversion loop succeeds, every input element is a non-nil
image whose conversion is in the output slice. -/
lemma convertLoop_ok_mem (images : List (Option GoImage)) (k : Nat)
    (hdrs : List HDRImage) (hok : convertLoop images k = .ok hdrs) :
    ∀ x ∈ images, ∃ g, x = some g ∧ toHDRImage g ∈ hdrs := by
  induction images generalizing k hdrs with
  | nil => intro x hx; cases hx
  | cons hd rest ih =>
    intro x hx
    cases hd with
    | none => cases hok
    | some g =>
      simp only [convertLoop] at hok
      rcases h : convertLoop rest (k + 1) with e | tl
      · rw [h] at hok; cases hok
      · rw [h] at hok
        cases hok
        rcases List.mem_cons.mp hx with rfl | hx'
        · exact ⟨g, rfl, List.mem_cons_self _ _⟩
        · rcases ih (k + 1) tl h x hx' with ⟨g', hg', hmem⟩
          exact ⟨g', hg', List.mem_cons_of_mem _ hmem⟩

/-- The bounds-checking loop succeeds on a slice whose members all share
the base bounds. -/
lemma boundsLoop_ok (base : Rect) (rest : List HDRImage)
    (hall : ∀ h ∈ rest, h.bounds = base) :
    ∀ i, boundsLoop base rest i = .ok () := by
  induction rest with
  | nil => intro i; rfl
  | cons hd tl ih =>
    intro i
    have hhd : hd.bounds = base := hall hd (List.mem_cons_self _ _)
    simp only [boundsLoop, hhd]
    simpa using ih (fun h hh => hall h (List.mem_cons_of_mem _ hh)) (i + 1)

/-- When the bounds-checking loop succeeds, every member of the slice has
the base bounds. -/
lemma boundsLoop_ok_all (base : Rect) (rest : List HDRImage) :
    ∀ i, boundsLoop base rest i = .ok () → ∀ h ∈ rest, h.bounds = base := by
  induction rest with
  | nil => intro i _ h hh; cases hh
  | cons hd tl ih =>
    intro i hok h hh
    by_cases hb : hd.bounds = base
    · simp only [boundsLoop, hb] at hok
      rcases List.mem_cons.mp hh with rfl | hh'
      · exact hb
      · exact ih (i + 1) (by simpa using hok) h hh'
    · simp [boundsLoop, hb] at hok

/-- The bounds-checking loop fails with a dimension-mismatch error when
some member of the slice has different bounds. -/
lemma boundsLoop_error (base : Rect) (rest : List HDRImage)
    (hbad : ∃ h ∈ rest, h.bounds ≠ base) :
    ∀ i, ∃ k, boundsLoop base rest i = .error (.dimensionMismatch k) := by
  induction rest with
  | nil => rcases hbad with ⟨h, hh, _⟩; cases hh
  | cons hd tl ih =>
    intro i
    by_cases hb : hd.bounds = base
    · have htl : ∃ h ∈ tl, h.bounds ≠ base := by
        rcases hbad with ⟨h, hh, hne⟩
        rcases List.mem_cons.mp hh with rfl | hh'
        · exact absurd hb hne
        · exact ⟨h, hh', hne⟩
      rcases ih htl (i + 1) with ⟨k, hk⟩
      exact ⟨k, by simp [boundsLoop, hb, hk]⟩
    · exact ⟨i + 2, by simp [boundsLoop, hb]⟩

/-- When `validateImageProperties` succeeds, every image in the slice has
the bounds of the first one. -/
lemma validateImageProperties_ok_all (hdrs : List HDRImage)
    (hok : validateImageProperties hdrs = .ok ()) :
    ∀ h ∈ hdrs, h.bounds = hdrs.headI.bounds := by
  cases hdrs with
  | nil => intro h hh; cases hh
  | cons hd tl =>
    intro h hh
    unfold validateImageProperties at hok
    split at hok
    · exact absurd hok (by simp)
    · rcases List.mem_cons.mp hh with rfl | hh'
      · rfl
      · exact boundsLoop_ok_all _ _ 0 (by simpa using hok) h hh'

/-- `checkImages` succeeds on a nil-free slice of at least two images that
all share the bounds of the first, and returns their conversions. -/
lemma checkImages_map_some_ok (gs : List GoImage) (h2 : 2 ≤ gs.length)
    (hall : ∀ g ∈ gs, g.boundsOf = gs.headI.boundsOf) :
    checkImages (gs.map some) = .ok (gs.map toHDRImage) := by
  cases gs with
  | nil => simp at h2
  | cons g rest =>
    have hlen2 : 2 ≤ rest.length + 1 := by simpa using h2
    have hval : validateImageProperties (toHDRImage g :: rest.map toHDRImage) = .ok () := by
      unfold validateImageProperties
      rw [if_neg (by simp only [List.length_cons, List.length_map]; omega)]
      simp only [List.headI, List.tail_cons]
      refine boundsLoop_ok _ _ ?_ 0
      intro h hh
      rcases List.mem_map.mp hh with ⟨g', hg', rfl⟩
      rw [toHDRImage_bounds, toHDRImage_bounds]
      exact hall g' (List.mem_cons_of_mem _ hg')
    unfold checkImages
    rw [if_neg (by simp only [List.length_map, List.length_cons]; omega),
      convertLoop_map_some]
    simp only [List.map_cons]
    rw [hval]

/-- When `checkImages` succeeds, every input element is a non-nil image
whose bounds are those of the first converted image. -/
lemma checkImages_ok_bounds (images : List (Option GoImage))
    (hdrs : List HDRImage) (hok : checkImages images = .ok hdrs) :
    ∀ x ∈ images, ∀ g, x = some g → g.boundsOf = hdrs.headI.bounds := by
  intro x hx g hg
  unfold checkImages at hok
  split at hok
  · exact absurd hok (by simp)
  · rcases hconv : convertLoop images 0 with e | hdrs2
    · simp [hconv] at hok
    · simp only [hconv] at hok
      rcases hval : validateImageProperties hdrs2 with e | u
      · simp [hval] at hok
      · simp only [hval, Except.ok.injEq] at hok
        subst hok
        rcases convertLoop_ok_mem images 0 hdrs2 hconv x hx with ⟨g2, hg2, hmem⟩
        rw [hg] at hg2
        cases hg2
        rw [← toHDRImage_bounds]
        exact validateImageProperties_ok_all hdrs2 (by cases u; exact hval) _ hmem

/-- `process` on validated input with a recognised operator: the full pixel
grid is written and the tone-mapped merge is returned. -/
lemma process_eq_ok (p : HDRProcessor) (images : List (Option GoImage))
    (hdrs : List HDRImage) (hok : checkImages images = .ok hdrs)
    (hop : p.toneMapper = "reinhard05" ∨ p.toneMapper = "drago03") :
    process p images =
      (hdrs.headI.bounds.pixels,
       .ok (tmoPerform (mergeAverage hdrs hdrs.headI.bounds))) := by
  unfold process
  rw [hok]
  rcases hop with h | h <;> simp [h]

/-- A pixel of the fused map where the weight sum vanishes keeps value 0. -/
lemma fusedAt_of_sumWeights_eq_zero (imgs : List HDRImage) (x y : Int)
    (h0 : sumWeights imgs x y = 0) : fusedAt imgs x y = (0, 0, 0) := by
  unfold fusedAt
  rw [weightedSums_eq]
  simp [h0]

/-- A pixel of the fused map with non-vanishing weight sum carries the
weighted average. -/
lemma fusedAt_of_sumWeights_ne_zero (imgs : List HDRImage) (x y : Int)
    (hne : sumWeights imgs x y ≠ 0) :
    fusedAt imgs x y =
      (sumWeighted RGBq.r imgs x y / sumWeights imgs x y,
       sumWeighted RGBq.g imgs x y / sumWeights imgs x y,
       sumWeighted RGBq.b imgs x y / sumWeights imgs x y) := by
  have hpos : 0 < sumWeights imgs x y :=
    lt_of_le_of_ne (sumWeights_nonneg imgs x y) (Ne.symm hne)
  unfold fusedAt
  rw [weightedSums_eq]
  simp [hpos]

/-! ## Claim theorems -/

/-- Claim C1, amended. The exposure-fusion weight function of the code is
the Gaussian bump `exp(-4 (v - 0.5)^2)`, not the spec's polynomial: it
attains `exp(-1) ≈ 0.368`, not `0`, at `v = 0` and `v = 1`; the remaining
parts of the claim hold — `weight(0.5) = 1`, symmetry about `0.5`, and
(strict) positivity for every `v`, hence non-negativity on `[0,1]`. -/
theorem calculateWeight_bump_profile :
    calculateWeight 0 = Real.exp (-1)
  ∧ calculateWeight 1 = Real.exp (-1)
  ∧ calculateWeight (1/2) = 1
  ∧ (∀ d : ℝ, calculateWeight (1/2 - d) = calculateWeight (1/2 + d))
  ∧ (∀ v : ℝ, 0 < calculateWeight v) := by
  refine ⟨?_, ?_, ?_, ?_, ?_⟩
  · norm_num [calculateWeight]
  · norm_num [calculateWeight]
  · norm_num [calculateWeight, Real.exp_zero]
  · intro d
    unfold calculateWeight
    congr 1
    ring
  · intro v
    exact Real.exp_pos _

/-- Claim C1, counterexample to the claim as stated: the weight at `v = 0`
is not `0` (it is `exp(-1) > 0`). -/
theorem calculateWeight_zero_ne_zero : calculateWeight 0 ≠ 0 := by
  unfold calculateWeight
  exact Real.exp_ne_zero _

/-- Claim C4, code bug witness. The Drago operator of
src/internal/processor/tonemap.go with `LdMax = 100`, `B = 0.85` maps `0`
and `-1` to `0` as claimed, but its output is not confined to `[0,1]`: at
radiance `1` it returns `34450/289 ≈ 119.2`, contradicting both the claim
and the repository's own test, which expects about `0.0795` there. -/
theorem drago_tonemap_out_of_range :
    (NewDragoToneMapper 100 0.85).ToneMap 0 = 0
  ∧ (NewDragoToneMapper 100 0.85).ToneMap (-1) = 0
  ∧ (NewDragoToneMapper 100 0.85).ToneMap 1 = 34450/289
  ∧ 1 < (NewDragoToneMapper 100 0.85).ToneMap 1 := by
  refine ⟨?_, ?_, ?_, ?_⟩ <;>
    norm_num [NewDragoToneMapper, DragoToneMapper.ToneMap]

/-- Claim C5. The Reinhard operator of
src/internal/processor/tonemap.go maps `0 ↦ 0`, `1 ↦ 1/2`,
`10 ↦ 10/11 ≈ 0.9091`, clamps `-1` to `0`, and is strictly increasing on
the non-negative inputs. -/
theorem reinhard_tonemap_profile :
    NewReinhardToneMapper.ToneMap 0 = 0
  ∧ NewReinhardToneMapper.ToneMap 1 = 1/2
  ∧ |NewReinhardToneMapper.ToneMap 10 - 0.9091| < 1/10000
  ∧ NewReinhardToneMapper.ToneMap (-1) = 0
  ∧ (∀ a b : ℚ, 0 ≤ a → a < b →
       NewReinhardToneMapper.ToneMap a < NewReinhardToneMapper.ToneMap b) := by
  refine ⟨?_, ?_, ?_, ?_, ?_⟩
  · norm_num [NewReinhardToneMapper, ReinhardToneMapper.ToneMap]
  · norm_num [NewReinhardToneMapper, ReinhardToneMapper.ToneMap]
  · norm_num [NewReinhardToneMapper, ReinhardToneMapper.ToneMap, abs_lt]
  · norm_num [NewReinhardToneMapper, ReinhardToneMapper.ToneMap]
  · intro a b ha hab
    have hb : 0 ≤ b := le_trans ha hab.le
    unfold ReinhardToneMapper.ToneMap
    simp only [max_eq_right ha, max_eq_right hb]
    rw [div_lt_div_iff₀ (by linarith) (by linarith)]
    nlinarith

/-- Claim C5 witness: the profile theorem applied at the concrete
monotonicity instance `a = 0 < b = 1`. -/
theorem reinhard_tonemap_profile_witness :
    (0 : ℚ) ≤ 0 ∧ (0 : ℚ) < 1
  ∧ NewReinhardToneMapper.ToneMap 0 < NewReinhardToneMapper.ToneMap 1 :=
  ⟨le_refl 0, by norm_num,
   reinhard_tonemap_profile.2.2.2.2 0 1 (le_refl 0) (by norm_num)⟩

/-- Claim C7, amended. In the cited validation path,
`GetImageProperties` hard-codes `ColorDepth = 8` and never consults the
image's actual channel encoding, so `ValidateImageProperties` over two
records produced with the same format extension reduces to a comparison of
the dimensions only — a difference in actual bits-per-channel or colour
model is invisible to this validator. (A colour-model comparison exists
only in the separate main-package validator snapshots of
src/unnamed/part_000 and part_001, not in the functions the claim cites.) -/
theorem validateProps_ignores_channel_encoding :
    ∀ (a b : SrcImage) (f : String),
      ValidateImageProperties (GetImageProperties a f) (GetImageProperties b f) =
        (decide (a.bounds.dx = b.bounds.dx) && decide (a.bounds.dy = b.bounds.dy)) := by
  intro a b f
  by_cases h1 : a.bounds.dx = b.bounds.dx <;>
    by_cases h2 : a.bounds.dy = b.bounds.dy <;>
      simp [ValidateImageProperties, GetImageProperties, h1, h2]

/-- An 8-bits-per-channel RGB source image, 1x1. -/
def src8 : SrcImage := ⟨rect1, 8, 0⟩

/-- A 16-bits-per-channel RGB source image, 1x1, same bounds as `src8`. -/
def src16 : SrcImage := ⟨rect1, 16, 0⟩

/-- Claim C7, counterexample to the claim as stated: two images whose
channel encodings (8 vs 16 bits per channel) differ nevertheless pass
`ValidateImageProperties` — this validation path cannot raise a
channel-model-mismatch error, so validation does not fail whenever the
encodings differ. -/
theorem validateProps_channel_counterexample :
    src8.bitsPerChannel ≠ src16.bitsPerChannel
  ∧ ValidateImageProperties (GetImageProperties src8 ".png")
      (GetImageProperties src16 ".png") = true := by
  exact ⟨by decide, by decide⟩

/-- Claim C2. At every pixel the weighted fusion of part_007 computes the
fused channel value as the weighted channel sum divided by the weight sum;
at a pixel whose weight sum is zero the fused value is 0 (the guarded
write leaves the zero-initialised pixel untouched — no division by zero);
and on validator-approved input with a recognised operator, `Process`
returns no error. -/
theorem fusion_formula_no_error :
    (∀ (imgs : List HDRImage) (x y : Int), sumWeights imgs x y = 0 →
        fusedAt imgs x y = (0, 0, 0))
  ∧ (∀ (imgs : List HDRImage) (x y : Int), sumWeights imgs x y ≠ 0 →
        fusedAt imgs x y =
          (sumWeighted RGBq.r imgs x y / sumWeights imgs x y,
           sumWeighted RGBq.g imgs x y / sumWeights imgs x y,
           sumWeighted RGBq.b imgs x y / sumWeights imgs x y))
  ∧ (∀ (p : HDRProcessor) (images : List (Option GoImage)) (hdrs : List HDRImage),
        part7Validate p images = .ok hdrs → p.toneMapper ∈ part7Operators →
        ∃ out, part7Process p images = .ok out) := by
  refine ⟨fusedAt_of_sumWeights_eq_zero, fusedAt_of_sumWeights_ne_zero, ?_⟩
  intro p images hdrs hval hop
  refine ⟨tmoPerformR (fusedMap hdrs hdrs.headI.bounds), ?_⟩
  unfold part7Process
  rw [hval]
  simp [hop]

/-- Claim C2 witness: the fusion theorem applied at concrete inputs — the
empty pixel stack (weight sum 0), a one-image stack at mid-grey (weight
sum 1), and a validator-approved two-image input with the default
operator. -/
theorem fusion_formula_no_error_witness :
    (sumWeights [] 0 0 = 0 ∧ fusedAt [] 0 0 = (0, 0, 0))
  ∧ (sumWeights [hdrMid] 0 0 ≠ 0 ∧
      fusedAt [hdrMid] 0 0 =
        (sumWeighted RGBq.r [hdrMid] 0 0 / sumWeights [hdrMid] 0 0,
         sumWeighted RGBq.g [hdrMid] 0 0 / sumWeights [hdrMid] 0 0,
         sumWeighted RGBq.b [hdrMid] 0 0 / sumWeights [hdrMid] 0 0))
  ∧ (part7Validate procReinhard imagesMid = .ok [hdrMid, hdrMid]
      ∧ "reinhard05" ∈ part7Operators
      ∧ ∃ out, part7Process procReinhard imagesMid = .ok out) := by
  have h1 : sumWeights [hdrMid] 0 0 = 1 := by
    simp only [sumWeights, pixelWeight, hdrMid, List.map_cons, List.map_nil,
      List.sum_cons, List.sum_nil, calculateWeight]
    norm_num
  refine ⟨⟨rfl, fusion_formula_no_error.1 [] 0 0 rfl⟩,
    ⟨by rw [h1]; exact one_ne_zero,
     fusion_formula_no_error.2.1 [hdrMid] 0 0 (by rw [h1]; exact one_ne_zero)⟩,
    rfl, by decide,
    fusion_formula_no_error.2.2 procReinhard imagesMid [hdrMid, hdrMid] rfl (by decide)⟩

/-- Claim C3, amended. On validated input with an unrecognised tone-mapper
name, `Process` does return the unsupported-operator error — but only
after the exposure-fusion loop has run: every in-bounds pixel of the
merged radiance map is written before the tone-mapper name is examined,
so the error is not raised "before processing any pixels". -/
theorem process_unsupported_after_merge :
    ∀ (p : HDRProcessor) (images : List (Option GoImage)) (hdrs : List HDRImage),
      checkImages images = .ok hdrs →
      p.toneMapper ≠ "reinhard05" → p.toneMapper ≠ "drago03" →
      process p images =
        (hdrs.headI.bounds.pixels, .error (.unsupportedOperator p.toneMapper)) := by
  intro p images hdrs hok h1 h2
  unfold process
  rw [hok]
  simp [h1, h2]

/-- Claim C3 witness: the amended theorem applied to a concrete validated
two-image input and the unrecognised name "bogus". -/
theorem process_unsupported_after_merge_witness :
    checkImages imagesMid = .ok [hdrMid, hdrMid]
  ∧ procBogus.toneMapper ≠ "reinhard05"
  ∧ procBogus.toneMapper ≠ "drago03"
  ∧ process procBogus imagesMid =
      (([hdrMid, hdrMid] : List HDRImage).headI.bounds.pixels,
       .error (.unsupportedOperator procBogus.toneMapper)) :=
  ⟨rfl, by decide, by decide,
   process_unsupported_after_merge procBogus imagesMid [hdrMid, hdrMid] rfl
     (by decide) (by decide)⟩

/-- Claim C3, counterexample to the claim as stated: with an unrecognised
operator on a validated 1x1 two-image input, `Process` does return the
unsupported-operator error, but the list of pixel positions written into
the merged radiance map before returning is not empty — the merge ran
first. -/
theorem process_unsupported_writes_counterexample :
    (process procBogus imagesMid).2 = .error (.unsupportedOperator "bogus")
  ∧ (process procBogus imagesMid).1 ≠ [] := by
  have h : process procBogus imagesMid =
      ([(0, 0)], .error (.unsupportedOperator "bogus")) := rfl
  rw [h]
  exact ⟨rfl, by simp⟩

/-- Claim C6, amended. The validation phase of `Process` rejects an empty
list and a single exposure (both with the same insufficient-count error),
a nil element anywhere in the list including the first position (with a
nil-image error carrying the position), and any exposure whose bounds
differ from the first (with a dimension-mismatch error); the three error
kinds are pairwise distinct, and nil-free inputs of size ≥ 2 with matching
bounds pass validation with no error. -/
theorem validator_rejects_each_case :
    checkImages [] = .error .insufficientCount
  ∧ (∀ g : Option GoImage, checkImages [g] = .error .insufficientCount)
  ∧ (∀ rest : List (Option GoImage), rest ≠ [] →
       checkImages (none :: rest) = .error (.nilImage 1))
  ∧ (∀ images : List (Option GoImage), 2 ≤ images.length → none ∈ images →
       ∃ i, checkImages images = .error (.nilImage i))
  ∧ (∀ (g : GoImage) (gs : List GoImage),
       (∃ h ∈ gs, h.boundsOf ≠ g.boundsOf) →
       ∃ k, checkImages ((g :: gs).map some) = .error (.dimensionMismatch k))
  ∧ (∀ i, ProcessError.insufficientCount ≠ .nilImage i)
  ∧ (∀ i k, ProcessError.nilImage i ≠ .dimensionMismatch k)
  ∧ (∀ k, ProcessError.insufficientCount ≠ .dimensionMismatch k)
  ∧ (∀ gs : List GoImage, 2 ≤ gs.length →
       (∀ g ∈ gs, g.boundsOf = gs.headI.boundsOf) →
       checkImages (gs.map some) = .ok (gs.map toHDRImage)) := by
  refine ⟨rfl, fun g => rfl, ?_, ?_, ?_, ?_, ?_, ?_, checkImages_map_some_ok⟩
  · intro rest hne
    have hpos : 0 < rest.length := List.length_pos.mpr hne
    unfold checkImages
    rw [if_neg (by simp only [List.length_cons]; omega)]
    rfl
  · intro images h2 hmem
    rcases convertLoop_mem_none images hmem 0 with ⟨i, hi⟩
    refine ⟨i, ?_⟩
    unfold checkImages
    rw [if_neg (by omega)]
    simp [hi]
  · intro g gs hbad
    rcases hbad with ⟨h, hh, hne⟩
    have hgs : gs ≠ [] := List.ne_nil_of_mem hh
    have hpos : 0 < gs.length := List.length_pos.mpr hgs
    rcases boundsLoop_error (toHDRImage g).bounds (gs.map toHDRImage)
        ⟨toHDRImage h, List.mem_map_of_mem _ hh,
         by rw [toHDRImage_bounds, toHDRImage_bounds]; exact hne⟩ 0 with ⟨k, hk⟩
    refine ⟨k, ?_⟩
    unfold checkImages
    rw [if_neg (by simp only [List.length_map, List.length_cons]; omega),
      convertLoop_map_some]
    have hval : validateImageProperties ((g :: gs).map toHDRImage) =
        .error (.dimensionMismatch k) := by
      unfold validateImageProperties
      rw [if_neg (by simp only [List.length_map, List.length_cons]; omega)]
      simpa using hk
    simp only [List.map_cons] at hval ⊢
    rw [hval]
  · intro i
    exact fun h => ProcessError.noConfusion h
  · intro i k
    exact fun h => ProcessError.noConfusion h
  · intro k
    exact fun h => ProcessError.noConfusion h

/-- Claim C6, counterexample to the claim as stated: the empty-list case
and the single-exposure case produce the very same insufficient-count
error (Go reaches the same `errors.New("at least two images are
required")` in both), so the enumerated cases do not each carry a distinct
error. -/
theorem validator_empty_single_same_error :
    checkImages [] = .error .insufficientCount
  ∧ checkImages [some (.hdrI hdrMid)] = .error .insufficientCount :=
  ⟨rfl, rfl⟩

/-- A 2x2 HDR image, used to exhibit a dimension mismatch against the 1x1
fixtures. -/
def hdrBig : HDRImage := ⟨⟨0, 0, 2, 2⟩, fun _ _ => ⟨1/2, 1/2, 1/2⟩⟩

/-- Claim C6 witness: the amended theorem applied to concrete inputs — a
nil tail element, a nil first element, a bounds mismatch, and a valid
two-image input. -/
theorem validator_rejects_each_case_witness :
    (([some (.hdrI hdrMid)] : List (Option GoImage)) ≠ [] ∧
      checkImages (none :: [some (.hdrI hdrMid)]) = .error (.nilImage 1))
  ∧ (2 ≤ ([some (.hdrI hdrMid), none] : List (Option GoImage)).length ∧
      none ∈ ([some (.hdrI hdrMid), none] : List (Option GoImage)) ∧
      ∃ i, checkImages [some (.hdrI hdrMid), none] = .error (.nilImage i))
  ∧ ((∃ h ∈ [GoImage.hdrI hdrBig], h.boundsOf ≠ (GoImage.hdrI hdrMid).boundsOf) ∧
      ∃ k, checkImages (([GoImage.hdrI hdrMid, GoImage.hdrI hdrBig]).map some) =
        .error (.dimensionMismatch k))
  ∧ (2 ≤ ([GoImage.hdrI hdrMid, GoImage.hdrI hdrMid] : List GoImage).length ∧
      checkImages (([GoImage.hdrI hdrMid, GoImage.hdrI hdrMid]).map some) =
        .ok (([GoImage.hdrI hdrMid, GoImage.hdrI hdrMid]).map toHDRImage)) := by
  have hnil : ([some (.hdrI hdrMid)] : List (Option GoImage)) ≠ [] := by simp
  have hmem : none ∈ ([some (.hdrI hdrMid), none] : List (Option GoImage)) := by simp
  have hbad : ∃ h ∈ [GoImage.hdrI hdrBig], h.boundsOf ≠ (GoImage.hdrI hdrMid).boundsOf := by
    refine ⟨GoImage.hdrI hdrBig, by simp, ?_⟩
    simp only [GoImage.boundsOf, hdrBig, hdrMid, rect1]
    decide
  have hall : ∀ g ∈ ([GoImage.hdrI hdrMid, GoImage.hdrI hdrMid] : List GoImage),
      g.boundsOf = ([GoImage.hdrI hdrMid, GoImage.hdrI hdrMid] : List GoImage).headI.boundsOf := by
    intro g hg
    rcases List.mem_cons.mp hg with rfl | hg'
    · rfl
    · rcases List.mem_cons.mp hg' with rfl | hg''
      · rfl
      · cases hg''
  exact ⟨⟨hnil, validator_rejects_each_case.2.2.1 _ hnil⟩,
    ⟨by decide, hmem, validator_rejects_each_case.2.2.2.1 _ (by decide) hmem⟩,
    ⟨hbad, validator_rejects_each_case.2.2.2.2.1 _ _ hbad⟩,
    ⟨by decide, validator_rejects_each_case.2.2.2.2.2.2.2.2 _ (by decide) hall⟩⟩

/-- Claim C8. Merging `n ≥ 2` identical exposures reproduces the single
exposure's radiance-converted value exactly at every pixel: the weighted
fusion of part_007 yields the pixel's own channel values (the shared
positive weight cancels), and the average merge of hdr.go yields the same
at every in-bounds pixel. -/
theorem merge_identical_exposures :
    ∀ (g : GoImage) (n : ℕ), 2 ≤ n → ∀ (x y : Int),
      (fusedAt (List.replicate n (toHDRImage g)) x y =
        ((((toHDRImage g).hdrAt x y).r : ℝ), (((toHDRImage g).hdrAt x y).g : ℝ),
         (((toHDRImage g).hdrAt x y).b : ℝ)))
    ∧ ((toHDRImage g).bounds.contains x y →
        (mergeAverage (List.replicate n (toHDRImage g)) (toHDRImage g).bounds).hdrAt x y
          = (toHDRImage g).hdrAt x y) := by
  intro g n hn x y
  set h := toHDRImage g with hh
  have hn0 : 0 < n := lt_of_lt_of_le (by norm_num) hn
  have hnR : (0 : ℝ) < (n : ℝ) := by exact_mod_cast hn0
  have hw : 0 < pixelWeight h x y := pixelWeight_pos h x y
  constructor
  · have hsw : sumWeights (List.replicate n h) x y = (n : ℝ) * pixelWeight h x y := by
      unfold sumWeights
      rw [List.map_replicate, List.sum_replicate, nsmul_eq_mul]
    have hch : ∀ ch : RGBq → ℚ, sumWeighted ch (List.replicate n h) x y =
        (n : ℝ) * ((ch (h.hdrAt x y) : ℝ) * pixelWeight h x y) := by
      intro ch
      unfold sumWeighted
      rw [List.map_replicate, List.sum_replicate, nsmul_eq_mul]
    have hne : sumWeights (List.replicate n h) x y ≠ 0 := by
      rw [hsw]
      exact ne_of_gt (mul_pos hnR hw)
    rw [fusedAt_of_sumWeights_ne_zero _ _ _ hne, hsw, hch, hch, hch]
    refine Prod.ext ?_ (Prod.ext ?_ ?_) <;> dsimp only <;>
      · rw [div_eq_iff (ne_of_gt (mul_pos hnR hw))]
        ring
  · intro hcont
    have hnQ : ((n : ℚ)) ≠ 0 := by exact_mod_cast hn0.ne'
    have hcs : channelSums (List.replicate n h) x y =
        ((n : ℚ) * (h.hdrAt x y).r, (n : ℚ) * (h.hdrAt x y).g,
         (n : ℚ) * (h.hdrAt x y).b) := by
      rw [channelSums_eq]
      simp only [List.map_replicate, List.sum_replicate, nsmul_eq_mul]
    unfold mergeAverage
    simp only [hcont, if_true, hcs, List.length_replicate]
    rcases hc : h.hdrAt x y with ⟨cr, cg, cb⟩
    simp only [hc, RGBq.mk.injEq]
    refine ⟨?_, ?_, ?_⟩ <;> field_simp

/-- Claim C8 witness: the idempotence theorem applied to two copies of a
concrete 1x1 HDR exposure. -/
theorem merge_identical_exposures_witness :
    2 ≤ 2
  ∧ ((fusedAt (List.replicate 2 (toHDRImage (.hdrI hdrMid))) 0 0 =
        ((((toHDRImage (.hdrI hdrMid)).hdrAt 0 0).r : ℝ),
         (((toHDRImage (.hdrI hdrMid)).hdrAt 0 0).g : ℝ),
         (((toHDRImage (.hdrI hdrMid)).hdrAt 0 0).b : ℝ)))
    ∧ ((toHDRImage (.hdrI hdrMid)).bounds.contains 0 0 →
        (mergeAverage (List.replicate 2 (toHDRImage (.hdrI hdrMid)))
            (toHDRImage (.hdrI hdrMid)).bounds).hdrAt 0 0
          = (toHDRImage (.hdrI hdrMid)).hdrAt 0 0)) :=
  ⟨le_refl 2, merge_identical_exposures (.hdrI hdrMid) 2 (le_refl 2) 0 0⟩

/-- Claim C9. On every validated input (size ≥ 2, nil-free, matching
bounds — witnessed by `checkImages` succeeding) with a recognised
tone-mapper name, `Process` returns a display image whose bounds equal the
bounds of every input exposure. -/
theorem process_preserves_bounds :
    ∀ (p : HDRProcessor) (images : List (Option GoImage)) (hdrs : List HDRImage),
      checkImages images = .ok hdrs →
      (p.toneMapper = "reinhard05" ∨ p.toneMapper = "drago03") →
      ∃ out : DisplayImage, (process p images).2 = .ok out ∧
        ∀ x ∈ images, ∀ g, x = some g → out.bounds = g.boundsOf := by
  intro p images hdrs hok hop
  refine ⟨tmoPerform (mergeAverage hdrs hdrs.headI.bounds), ?_, ?_⟩
  · rw [process_eq_ok p images hdrs hok hop]
  · intro x hx g hg
    exact (checkImages_ok_bounds images hdrs hok x hx g hg).symm

/-- Claim C9 witness: the bounds-preservation theorem applied to a
concrete validated two-image input with the default operator. -/
theorem process_preserves_bounds_witness :
    checkImages imagesMid = .ok [hdrMid, hdrMid]
  ∧ (procReinhard.toneMapper = "reinhard05" ∨ procReinhard.toneMapper = "drago03")
  ∧ ∃ out : DisplayImage, (process procReinhard imagesMid).2 = .ok out ∧
      ∀ x ∈ imagesMid, ∀ g, x = some g → out.bounds = g.boundsOf :=
  ⟨rfl, Or.inl rfl,
   process_preserves_bounds procReinhard imagesMid [hdrMid, hdrMid] rfl (Or.inl rfl)⟩

/-- Claim C10. The type switch of `Process` passes an input that already
implements the HDR interface through unchanged (no rescaling — such a
two-image input is accepted by validation whatever its radiance values,
including values outside [0,1]); a non-HDR input is converted by dividing
each in-bounds channel sample by 0xffff, which lands in [0,1] whenever the
samples respect the RGBA contract of at most 0xffff. -/
theorem hdr_passthrough_ldr_scaled :
    (∀ h : HDRImage, toHDRImage (.hdrI h) = h)
  ∧ (∀ h1 h2 : HDRImage, h1.bounds = h2.bounds →
       checkImages [some (.hdrI h1), some (.hdrI h2)] = .ok [h1, h2])
  ∧ (∀ (l : LDRImage) (x y : Int), l.bounds.contains x y →
       (toHDRImage (.ldrI l)).hdrAt x y =
         ⟨((l.rgbaAt x y).1 : ℚ) / 0xffff, ((l.rgbaAt x y).2.1 : ℚ) / 0xffff,
          ((l.rgbaAt x y).2.2.1 : ℚ) / 0xffff⟩)
  ∧ (∀ (l : LDRImage) (x y : Int),
       (l.rgbaAt x y).1 ≤ 0xffff → (l.rgbaAt x y).2.1 ≤ 0xffff →
       (l.rgbaAt x y).2.2.1 ≤ 0xffff →
       (0 ≤ ((toHDRImage (.ldrI l)).hdrAt x y).r
          ∧ ((toHDRImage (.ldrI l)).hdrAt x y).r ≤ 1)
     ∧ (0 ≤ ((toHDRImage (.ldrI l)).hdrAt x y).g
          ∧ ((toHDRImage (.ldrI l)).hdrAt x y).g ≤ 1)
     ∧ (0 ≤ ((toHDRImage (.ldrI l)).hdrAt x y).b
          ∧ ((toHDRImage (.ldrI l)).hdrAt x y).b ≤ 1)) := by
  refine ⟨fun h => rfl, ?_, ?_, ?_⟩
  · intro h1 h2 hb
    have hall : ∀ g ∈ ([GoImage.hdrI h1, GoImage.hdrI h2] : List GoImage),
        g.boundsOf = ([GoImage.hdrI h1, GoImage.hdrI h2] : List GoImage).headI.boundsOf := by
      intro g hg
      rcases List.mem_cons.mp hg with rfl | hg'
      · rfl
      · rcases List.mem_cons.mp hg' with rfl | hg''
        · exact hb.symm
        · cases hg''
    have hok := checkImages_map_some_ok [GoImage.hdrI h1, GoImage.hdrI h2]
      (le_refl 2) hall
    simpa using hok
  · intro l x y hc
    simp [toHDRImage, convertToHDR, hc]
  · intro l x y hr hg hb
    simp only [toHDRImage, convertToHDR]
    by_cases hc : l.bounds.contains x y
    · simp only [hc, if_true]
      refine ⟨⟨by positivity, ?_⟩, ⟨by positivity, ?_⟩, ⟨by positivity, ?_⟩⟩ <;>
        · rw [div_le_one (by norm_num)]
          exact_mod_cast (by assumption)
    · simp [hc]

/-- Claim C10 witness: the dispatch theorem applied to the concrete LDR
fixture (samples 65535, 0, 13107) and the out-of-range HDR fixture. -/
theorem hdr_passthrough_ldr_scaled_witness :
    (hdrBright.bounds = hdrBright.bounds ∧
      checkImages [some (.hdrI hdrBright), some (.hdrI hdrBright)] =
        .ok [hdrBright, hdrBright])
  ∧ (ldrSample.bounds.contains 0 0 ∧
      (toHDRImage (.ldrI ldrSample)).hdrAt 0 0 =
        ⟨((ldrSample.rgbaAt 0 0).1 : ℚ) / 0xffff,
         ((ldrSample.rgbaAt 0 0).2.1 : ℚ) / 0xffff,
         ((ldrSample.rgbaAt 0 0).2.2.1 : ℚ) / 0xffff⟩)
  ∧ ((ldrSample.rgbaAt 0 0).1 ≤ 0xffff ∧
      (0 ≤ ((toHDRImage (.ldrI ldrSample)).hdrAt 0 0).r
        ∧ ((toHDRImage (.ldrI ldrSample)).hdrAt 0 0).r ≤ 1)
     ∧ (0 ≤ ((toHDRImage (.ldrI ldrSample)).hdrAt 0 0).g
        ∧ ((toHDRImage (.ldrI ldrSample)).hdrAt 0 0).g ≤ 1)
     ∧ (0 ≤ ((toHDRImage (.ldrI ldrSample)).hdrAt 0 0).b
        ∧ ((toHDRImage (.ldrI ldrSample)).hdrAt 0 0).b ≤ 1)) :=
  ⟨⟨rfl, hdr_passthrough_ldr_scaled.2.1 hdrBright hdrBright rfl⟩,
   ⟨by decide, hdr_passthrough_ldr_scaled.2.2.1 ldrSample 0 0 (by decide)⟩,
   ⟨by decide, hdr_passthrough_ldr_scaled.2.2.2 ldrSample 0 0
      (by decide) (by decide) (by decide)⟩⟩

end Hdarrrr
